import Mathlib

/-!
Shallow embedding of `src/basic.py` (a lexer and recursive-descent parser for a
minimal arithmetic expression language) together with theorems settling the
frozen claims about it.

Modelling conventions:
* the input text is a `List Char`; positions are zero-based `Nat` offsets;
* Python `int(...)` on a digit run is `strToNat`; Python `float(...)` on a
  digit-and-one-dot run is modelled exactly as a rational (`strToRat`) rather
  than an IEEE double — the decimal literal's exact value;
* the lexer's `(tokens, error)` pair is `List Token × Option IllegalCharError`;
* the parser's possible outcomes are: a produced node together with the number
  of tokens it consumed (`PRes.ok`), a raised `Exception` message
  (`PRes.synErr`), or the unguarded `self.current_tok.type` attribute access on
  `None` (`PRes.crash`), which in Python is an `AttributeError`, not a syntax
  failure.
-/

namespace Basic

/-! ## Constants (`DIGITS`, `LETTERS`) -/

def DIGITS : List Char := "0123456789".data

def LETTERS : List Char :=
  "abcdefghijklmnopqrstuvwxyzABCDEFGHIJKLMNOPQRSTUVWXYZ_".data

/-! ## Token types and the `Token` class -/

inductive TokenType where
  | INT | FLOAT | PLUS | MINUS | MUL | DIV | LPAREN | RPAREN | EQ | IDENTIFIER
deriving DecidableEq

/-- The `value` field of a Python `Token`: `None`, an `int`, a `float`
(modelled as the exact rational value), or a string. -/
inductive TokenValue where
  | vNone
  | vInt (n : ℤ)
  | vFloat (q : ℚ)
  | vStr (s : List Char)
deriving DecidableEq

structure Token where
  type : TokenType
  value : TokenValue := TokenValue.vNone
deriving DecidableEq

/-- `Token.__repr__`: `type:value` when value is present, else just `type`. -/
def typeName : TokenType → String
  | .INT => "INT"
  | .FLOAT => "FLOAT"
  | .PLUS => "PLUS"
  | .MINUS => "MINUS"
  | .MUL => "MUL"
  | .DIV => "DIV"
  | .LPAREN => "LPAREN"
  | .RPAREN => "RPAREN"
  | .EQ => "EQ"
  | .IDENTIFIER => "IDENTIFIER"

def valueStr : TokenValue → String
  | .vNone => ""
  | .vInt n => toString n
  | .vFloat q => toString q
  | .vStr s => String.mk s

def reprTok (t : Token) : String :=
  match t.value with
  | .vNone => typeName t.type
  | v => typeName t.type ++ ":" ++ valueStr v

/-- `IllegalCharError(pos, char)`: the scanner's error, carrying the zero-based
offset of the offending character and the character itself. -/
structure IllegalCharError where
  pos : Nat
  char : Char
deriving DecidableEq

/-! ## Lexer -/

/-- Python `int(num_str)` on a run of decimal digits. -/
def strToNat (s : List Char) : Nat :=
  s.foldl (fun a c => 10 * a + (c.toNat - '0'.toNat)) 0

/-- Python `float(num_str)` on a digit run containing one decimal point,
modelled as the exact rational value of the decimal literal. -/
def strToRat (s : List Char) : ℚ :=
  let intPart := s.takeWhile (fun c => c ≠ '.')
  let fracPart := (s.dropWhile (fun c => c ≠ '.')).drop 1
  (strToNat intPart : ℚ) + (strToNat fracPart : ℚ) / (10 : ℚ) ^ fracPart.length

/-- The loop of `Lexer.make_number`: consume characters in `DIGITS + '.'`,
breaking just before a second decimal point.  Returns the consumed characters
(`num_str`), the final `dot_count`, and the unconsumed remainder of the text. -/
def make_number_core : List Char → Nat → List Char × Nat × List Char
  | [], dots => ([], dots, [])
  | c :: rest, dots =>
    if c ∈ DIGITS ++ ['.'] then
      if c = '.' then
        if dots = 1 then ([], dots, c :: rest)
        else
          match make_number_core rest (dots + 1) with
          | (s, d, r) => ('.' :: s, d, r)
      else
        match make_number_core rest dots with
        | (s, d, r) => (c :: s, d, r)
    else ([], dots, c :: rest)

/-- The loop of `Lexer.make_identifier`: consume characters in
`LETTERS + DIGITS`, returning `id_str` and the unconsumed remainder. -/
def make_identifier_core : List Char → List Char × List Char
  | [] => ([], [])
  | c :: rest =>
    if c ∈ LETTERS ++ DIGITS then
      match make_identifier_core rest with
      | (s, r) => (c :: s, r)
    else ([], c :: rest)

lemma make_number_core_suffix_le (cs : List Char) (d : Nat) :
    (make_number_core cs d).2.2.length ≤ cs.length := by
  induction cs generalizing d with
  | nil => simp [make_number_core]
  | cons c rest ih =>
    simp only [make_number_core]
    split
    · split
      · split
        · simp
        · have := ih (d + 1)
          rcases h : make_number_core rest (d + 1) with ⟨s, dd, r⟩
          rw [h] at this
          simpa using Nat.le_succ_of_le this
      · have := ih d
        rcases h : make_number_core rest d with ⟨s, dd, r⟩
        rw [h] at this
        simpa using Nat.le_succ_of_le this
    · simp

lemma mem_digits_ne_dot {c : Char} (h : c ∈ DIGITS) : c ≠ '.' := by
  intro hc
  subst hc
  revert h
  decide

lemma make_number_core_digit_suffix {c : Char} {rest : List Char} {d : Nat}
    {s : List Char} {dd : Nat} {r : List Char} (hc : c ∈ DIGITS)
    (h : make_number_core (c :: rest) d = (s, dd, r)) :
    r.length ≤ rest.length := by
  have hmem : c ∈ DIGITS ++ ['.'] := List.mem_append_left _ hc
  have hne : c ≠ '.' := mem_digits_ne_dot hc
  rcases hrec : make_number_core rest d with ⟨s', d', r'⟩
  simp only [make_number_core, if_pos hmem, if_neg hne, hrec] at h
  have := make_number_core_suffix_le rest d
  rw [hrec] at this
  cases h
  simpa using this

lemma make_identifier_core_suffix_le (cs : List Char) :
    (make_identifier_core cs).2.length ≤ cs.length := by
  induction cs with
  | nil => simp [make_identifier_core]
  | cons c rest ih =>
    simp only [make_identifier_core]
    split
    · rcases h : make_identifier_core rest with ⟨s, r⟩
      rw [h] at ih
      simpa using Nat.le_succ_of_le ih
    · simp

lemma make_identifier_core_letter_suffix {c : Char} {rest : List Char}
    {s r : List Char} (hc : c ∈ LETTERS)
    (h : make_identifier_core (c :: rest) = (s, r)) :
    r.length ≤ rest.length := by
  have hmem : c ∈ LETTERS ++ DIGITS := List.mem_append_left _ hc
  rcases hrec : make_identifier_core rest with ⟨s', r'⟩
  simp only [make_identifier_core, if_pos hmem, hrec] at h
  have := make_identifier_core_suffix_le rest
  rw [hrec] at this
  cases h
  simpa using this

/-- `Lexer.make_tokens`, with the text represented as the remaining character
list plus the absolute position `pos` of its first character.  On an illegal
character the whole call returns `([], error)` — tokens recognised earlier are
discarded, exactly as in the Python `return [], IllegalCharError(pos, char)`. -/
def make_tokens : List Char → Nat → List Token × Option IllegalCharError
  | [], _ => ([], none)
  | c :: rest, pos =>
    if c = ' ' ∨ c = '\t' then
      make_tokens rest (pos + 1)
    else if hd : c ∈ DIGITS then
      match hn : make_number_core (c :: rest) 0 with
      | (s, d, r) =>
        let tok : Token :=
          if d = 0 then ⟨TokenType.INT, TokenValue.vInt (strToNat s : ℤ)⟩
          else ⟨TokenType.FLOAT, TokenValue.vFloat (strToRat s)⟩
        match make_tokens r (pos + s.length) with
        | (_, some e) => ([], some e)
        | (toks, none) => (tok :: toks, none)
    else if hl : c ∈ LETTERS then
      match hi : make_identifier_core (c :: rest) with
      | (s, r) =>
        match make_tokens r (pos + s.length) with
        | (_, some e) => ([], some e)
        | (toks, none) => (⟨TokenType.IDENTIFIER, TokenValue.vStr s⟩ :: toks, none)
    else if c = '+' then
      match make_tokens rest (pos + 1) with
      | (_, some e) => ([], some e)
      | (toks, none) => (⟨TokenType.PLUS, TokenValue.vNone⟩ :: toks, none)
    else if c = '-' then
      match make_tokens rest (pos + 1) with
      | (_, some e) => ([], some e)
      | (toks, none) => (⟨TokenType.MINUS, TokenValue.vNone⟩ :: toks, none)
    else if c = '*' then
      match make_tokens rest (pos + 1) with
      | (_, some e) => ([], some e)
      | (toks, none) => (⟨TokenType.MUL, TokenValue.vNone⟩ :: toks, none)
    else if c = '/' then
      match make_tokens rest (pos + 1) with
      | (_, some e) => ([], some e)
      | (toks, none) => (⟨TokenType.DIV, TokenValue.vNone⟩ :: toks, none)
    else if c = '=' then
      match make_tokens rest (pos + 1) with
      | (_, some e) => ([], some e)
      | (toks, none) => (⟨TokenType.EQ, TokenValue.vNone⟩ :: toks, none)
    else if c = '(' then
      match make_tokens rest (pos + 1) with
      | (_, some e) => ([], some e)
      | (toks, none) => (⟨TokenType.LPAREN, TokenValue.vNone⟩ :: toks, none)
    else if c = ')' then
      match make_tokens rest (pos + 1) with
      | (_, some e) => ([], some e)
      | (toks, none) => (⟨TokenType.RPAREN, TokenValue.vNone⟩ :: toks, none)
    else ([], some ⟨pos, c⟩)
termination_by cs _ => cs.length
decreasing_by
all_goals
  first
  | (simp only [List.length_cons]; omega)
  | (have hq := make_number_core_digit_suffix hd hn
     simp only [List.length_cons]; omega)
  | (have hq := make_identifier_core_letter_suffix hl hi
     simp only [List.length_cons]; omega)

/-- `run`'s lexing entry point: `Lexer(text).make_tokens()` starts at offset 0. -/
def tokenize (text : List Char) : List Token × Option IllegalCharError :=
  make_tokens text 0

/-! ## AST nodes -/

inductive Node where
  | NumberNode (tok : Token)
  | VarAccessNode (var_name_tok : Token)
  | VarAssignNode (var_name_tok : Token) (value_node : Node)
  | BinOpNode (left_node : Node) (op_tok : Token) (right_node : Node)
deriving DecidableEq

/-! ## Parser

The Python parser holds the token list and a mutable cursor `tok_idx`;
`self.current_tok` is `self.tokens[self.tok_idx]` or `None` past the end, here
`toks[idx]?`.  Each parsing routine below takes the fixed token list and the
cursor position, and on success reports the parsed node together with how many
tokens it consumed (the cursor advance).  The three possible outcomes are the
ones the Python code can exhibit. -/

/-- Outcome of one Python parsing routine: `ok node consumed` (the routine
returned `node`, advancing the cursor by `consumed`), `synErr msg` (the routine
executed `raise Exception(msg)`), or `crash` (the routine evaluated
`self.current_tok.type` with `self.current_tok = None`, an `AttributeError`). -/
inductive PRes where
  | ok (n : Node) (consumed : Nat)
  | synErr (msg : String)
  | crash
deriving DecidableEq

lemma getElem?_some_lt {α : Type} {l : List α} {i : Nat} {a : α}
    (h : l[i]? = some a) : i < l.length := by
  by_contra hc
  push_neg at hc
  rw [List.getElem?_eq_none hc] at h
  exact Option.noConfusion h

mutual

/-- `Parser.factor`.  Note the unguarded `tok.type` access: when the cursor is
past the end (`current_tok is None`) the Python code raises `AttributeError`,
modelled as `PRes.crash`. -/
def factor (toks : List Token) (idx : Nat) : PRes :=
  match h : toks[idx]? with
  | none => PRes.crash
  | some tok =>
    if tok.type = TokenType.INT ∨ tok.type = TokenType.FLOAT then
      PRes.ok (Node.NumberNode tok) 1
    else if tok.type = TokenType.IDENTIFIER then
      PRes.ok (Node.VarAccessNode tok) 1
    else if tok.type = TokenType.LPAREN then
      match expr toks (idx + 1) with
      | PRes.ok e c =>
        match toks[idx + 1 + c]? with
        | some t =>
          if t.type = TokenType.RPAREN then PRes.ok e (c + 2)
          else PRes.synErr "Expected \x27)\x27"
        | none => PRes.synErr "Expected \x27)\x27"
      | PRes.synErr m => PRes.synErr m
      | PRes.crash => PRes.crash
    else PRes.synErr ("Unexpected token: " ++ reprTok tok)
termination_by 8 * (toks.length - idx) + 0
decreasing_by
all_goals
  first
  | omega
  | (have hq := getElem?_some_lt h; omega)

/-- `Parser.term`, i.e. `self.bin_op(self.factor, (TT_MUL, TT_DIV))`: the
initial `left = func()` followed by the iterative fold `term_loop`. -/
def term (toks : List Token) (idx : Nat) : PRes :=
  match factor toks idx with
  | PRes.ok left c =>
    match term_loop toks left (idx + c) with
    | PRes.ok n c2 => PRes.ok n (c + c2)
    | r => r
  | r => r
termination_by 8 * (toks.length - idx) + 2
decreasing_by
all_goals
  first
  | omega
  | (have hq := getElem?_some_lt h; omega)

/-- The `while` loop of `bin_op` specialised to `term`: while the current token
is `*` or `/`, consume it, parse another `factor`, and fold the running result
into a `BinOpNode` with the previous result as left child. -/
def term_loop (toks : List Token) (left : Node) (idx : Nat) : PRes :=
  match h : toks[idx]? with
  | some tok =>
    if tok.type = TokenType.MUL ∨ tok.type = TokenType.DIV then
      match factor toks (idx + 1) with
      | PRes.ok right c =>
        match term_loop toks (Node.BinOpNode left tok right) (idx + 1 + c) with
        | PRes.ok n c2 => PRes.ok n (1 + c + c2)
        | r => r
      | r => r
    else PRes.ok left 0
  | none => PRes.ok left 0
termination_by 8 * (toks.length - idx) + 1
decreasing_by
all_goals
  first
  | omega
  | (have hq := getElem?_some_lt h; omega)

/-- `Parser.expr`, i.e. `self.bin_op(self.term, (TT_PLUS, TT_MINUS))`. -/
def expr (toks : List Token) (idx : Nat) : PRes :=
  match term toks idx with
  | PRes.ok left c =>
    match expr_loop toks left (idx + c) with
    | PRes.ok n c2 => PRes.ok n (c + c2)
    | r => r
  | r => r
termination_by 8 * (toks.length - idx) + 4
decreasing_by
all_goals
  first
  | omega
  | (have hq := getElem?_some_lt h; omega)

/-- The `while` loop of `bin_op` specialised to `expr`: while the current token
is `+` or `-`, consume it, parse another `term`, and fold left. -/
def expr_loop (toks : List Token) (left : Node) (idx : Nat) : PRes :=
  match h : toks[idx]? with
  | some tok =>
    if tok.type = TokenType.PLUS ∨ tok.type = TokenType.MINUS then
      match term toks (idx + 1) with
      | PRes.ok right c =>
        match expr_loop toks (Node.BinOpNode left tok right) (idx + 1 + c) with
        | PRes.ok n c2 => PRes.ok n (1 + c + c2)
        | r => r
      | r => r
    else PRes.ok left 0
  | none => PRes.ok left 0
termination_by 8 * (toks.length - idx) + 3
decreasing_by
all_goals
  first
  | omega
  | (have hq := getElem?_some_lt h; omega)

/-- `Parser.statement`.  On an `Identifier` the cursor is advanced past it; if
the next token is not `Eq` the code falls through to `self.expr()` **without
resetting the cursor**, so `expr` starts at `idx + 1` — just as in the source,
where no cursor reset occurs. -/
def statement (toks : List Token) (idx : Nat) : PRes :=
  match h : toks[idx]? with
  | none => PRes.crash
  | some tok =>
    if tok.type = TokenType.IDENTIFIER then
      match toks[idx + 1]? with
      | some t2 =>
        if t2.type = TokenType.EQ then
          match expr toks (idx + 2) with
          | PRes.ok e c => PRes.ok (Node.VarAssignNode tok e) (2 + c)
          | r => r
        else
          match expr toks (idx + 1) with
          | PRes.ok n c => PRes.ok n (1 + c)
          | r => r
      | none =>
        match expr toks (idx + 1) with
        | PRes.ok n c => PRes.ok n (1 + c)
        | r => r
    else expr toks idx

end

/-- Overall result of `Parser.parse`: Python returns `None` on an empty token
list (`nothing`), otherwise the result of `self.statement()` — a node, a raised
`Exception`, or the `AttributeError` crash. -/
inductive ParseResult where
  | nothing
  | ast (n : Node)
  | synErr (msg : String)
  | crash
deriving DecidableEq

/-- `Parser.parse`: `Parser(tokens)` initialises the cursor to the first token;
`parse` returns `None` when `current_tok is None` (empty list), else runs
`statement`. -/
def parse (toks : List Token) : ParseResult :=
  match toks[0]? with
  | none => ParseResult.nothing
  | some _ =>
    match statement toks 0 with
    | PRes.ok n _ => ParseResult.ast n
    | PRes.synErr m => ParseResult.synErr m
    | PRes.crash => ParseResult.crash

/-- The `run` pipeline: lex, and if no lexing error, parse. -/
def run (text : List Char) : Option ParseResult × Option IllegalCharError :=
  match make_tokens text 0 with
  | (_, some e) => (none, some e)
  | (toks, none) => (some (parse toks), none)

/-! ## Step equations for the parser routines

One conditional rewriting equation per branch of each routine, used both to
evaluate the parser on concrete token lists and in the universal theorems. -/

lemma factor_eq_none {toks : List Token} {idx : Nat} (h : toks[idx]? = none) :
    factor toks idx = PRes.crash := by
  rw [factor.eq_def]
  split
  · rfl
  · rename_i tok h2
    rw [h] at h2
    cases h2

lemma factor_eq_number {toks : List Token} {idx : Nat} {tok : Token}
    (h : toks[idx]? = some tok)
    (ht : tok.type = TokenType.INT ∨ tok.type = TokenType.FLOAT) :
    factor toks idx = PRes.ok (Node.NumberNode tok) 1 := by
  rw [factor.eq_def]
  split
  · rename_i h2; rw [h] at h2; cases h2
  · rename_i tok2 h2
    rw [h] at h2
    cases h2
    rw [if_pos ht]

lemma factor_eq_ident {toks : List Token} {idx : Nat} {tok : Token}
    (h : toks[idx]? = some tok) (ht : tok.type = TokenType.IDENTIFIER) :
    factor toks idx = PRes.ok (Node.VarAccessNode tok) 1 := by
  rw [factor.eq_def]
  split
  · rename_i h2; rw [h] at h2; cases h2
  · rename_i tok2 h2
    rw [h] at h2
    cases h2
    rw [if_neg (by rw [ht]; rintro (h3 | h3) <;> cases h3), if_pos ht]

lemma factor_eq_lparen {toks : List Token} {idx : Nat} {tok : Token}
    (h : toks[idx]? = some tok) (ht : tok.type = TokenType.LPAREN) :
    factor toks idx =
      match expr toks (idx + 1) with
      | PRes.ok e c =>
        match toks[idx + 1 + c]? with
        | some t =>
          if t.type = TokenType.RPAREN then PRes.ok e (c + 2)
          else PRes.synErr "Expected \x27)\x27"
        | none => PRes.synErr "Expected \x27)\x27"
      | PRes.synErr m => PRes.synErr m
      | PRes.crash => PRes.crash := by
  rw [factor.eq_def]
  split
  · rename_i h2; rw [h] at h2; cases h2
  · rename_i tok2 h2
    rw [h] at h2
    cases h2
    rw [if_neg (by rw [ht]; rintro (h3 | h3) <;> cases h3),
      if_neg (by rw [ht]; rintro h3; cases h3), if_pos ht]

lemma factor_eq_other {toks : List Token} {idx : Nat} {tok : Token}
    (h : toks[idx]? = some tok)
    (h1 : ¬(tok.type = TokenType.INT ∨ tok.type = TokenType.FLOAT))
    (h2 : ¬tok.type = TokenType.IDENTIFIER)
    (h3 : ¬tok.type = TokenType.LPAREN) :
    factor toks idx = PRes.synErr ("Unexpected token: " ++ reprTok tok) := by
  rw [factor.eq_def]
  split
  · rename_i h4; rw [h] at h4; cases h4
  · rename_i tok2 h4
    rw [h] at h4
    cases h4
    rw [if_neg h1, if_neg h2, if_neg h3]

lemma term_eq (toks : List Token) (idx : Nat) :
    term toks idx =
      match factor toks idx with
      | PRes.ok left c =>
        match term_loop toks left (idx + c) with
        | PRes.ok n c2 => PRes.ok n (c + c2)
        | r => r
      | r => r := by
  rw [term.eq_def]

lemma term_loop_eq_none {toks : List Token} {idx : Nat} (left : Node)
    (h : toks[idx]? = none) : term_loop toks left idx = PRes.ok left 0 := by
  rw [term_loop.eq_def]
  split
  · rename_i h2; rw [h] at h2; cases h2
  · rfl

lemma term_loop_eq_noop {toks : List Token} {idx : Nat} {tok : Token}
    (left : Node) (h : toks[idx]? = some tok)
    (ht : ¬(tok.type = TokenType.MUL ∨ tok.type = TokenType.DIV)) :
    term_loop toks left idx = PRes.ok left 0 := by
  rw [term_loop.eq_def]
  split
  · rename_i tok2 h2
    rw [h] at h2
    cases h2
    rw [if_neg ht]
  · rfl

lemma term_loop_eq_op {toks : List Token} {idx : Nat} {tok : Token}
    (left : Node) (h : toks[idx]? = some tok)
    (ht : tok.type = TokenType.MUL ∨ tok.type = TokenType.DIV) :
    term_loop toks left idx =
      match factor toks (idx + 1) with
      | PRes.ok right c =>
        match term_loop toks (Node.BinOpNode left tok right) (idx + 1 + c) with
        | PRes.ok n c2 => PRes.ok n (1 + c + c2)
        | r => r
      | r => r := by
  rw [term_loop.eq_def]
  split
  · rename_i tok2 h2
    rw [h] at h2
    cases h2
    rw [if_pos ht]
  · rename_i h2; rw [h] at h2; cases h2

lemma expr_eq (toks : List Token) (idx : Nat) :
    expr toks idx =
      match term toks idx with
      | PRes.ok left c =>
        match expr_loop toks left (idx + c) with
        | PRes.ok n c2 => PRes.ok n (c + c2)
        | r => r
      | r => r := by
  rw [expr.eq_def]

lemma expr_loop_eq_none {toks : List Token} {idx : Nat} (left : Node)
    (h : toks[idx]? = none) : expr_loop toks left idx = PRes.ok left 0 := by
  rw [expr_loop.eq_def]
  split
  · rename_i h2; rw [h] at h2; cases h2
  · rfl

lemma expr_loop_eq_noop {toks : List Token} {idx : Nat} {tok : Token}
    (left : Node) (h : toks[idx]? = some tok)
    (ht : ¬(tok.type = TokenType.PLUS ∨ tok.type = TokenType.MINUS)) :
    expr_loop toks left idx = PRes.ok left 0 := by
  rw [expr_loop.eq_def]
  split
  · rename_i tok2 h2
    rw [h] at h2
    cases h2
    rw [if_neg ht]
  · rfl

lemma expr_loop_eq_op {toks : List Token} {idx : Nat} {tok : Token}
    (left : Node) (h : toks[idx]? = some tok)
    (ht : tok.type = TokenType.PLUS ∨ tok.type = TokenType.MINUS) :
    expr_loop toks left idx =
      match term toks (idx + 1) with
      | PRes.ok right c =>
        match expr_loop toks (Node.BinOpNode left tok right) (idx + 1 + c) with
        | PRes.ok n c2 => PRes.ok n (1 + c + c2)
        | r => r
      | r => r := by
  rw [expr_loop.eq_def]
  split
  · rename_i tok2 h2
    rw [h] at h2
    cases h2
    rw [if_pos ht]
  · rename_i h2; rw [h] at h2; cases h2

lemma statement_eq_none {toks : List Token} {idx : Nat}
    (h : toks[idx]? = none) : statement toks idx = PRes.crash := by
  rw [statement.eq_def]
  split
  · rfl
  · rename_i tok h2; rw [h] at h2; cases h2

lemma statement_eq_assign {toks : List Token} {idx : Nat} {tok t2 : Token}
    (h : toks[idx]? = some tok) (ht : tok.type = TokenType.IDENTIFIER)
    (h2 : toks[idx + 1]? = some t2) (ht2 : t2.type = TokenType.EQ) :
    statement toks idx =
      match expr toks (idx + 2) with
      | PRes.ok e c => PRes.ok (Node.VarAssignNode tok e) (2 + c)
      | r => r := by
  rw [statement.eq_def]
  split
  · rename_i h3; rw [h] at h3; cases h3
  · rename_i tok2 h3
    rw [h] at h3
    cases h3
    rw [if_pos ht]
    split
    · rename_i t2' h4
      rw [h2] at h4
      cases h4
      rw [if_pos ht2]
    · rename_i h4; rw [h2] at h4; cases h4

lemma statement_eq_ident_noeq {toks : List Token} {idx : Nat} {tok t2 : Token}
    (h : toks[idx]? = some tok) (ht : tok.type = TokenType.IDENTIFIER)
    (h2 : toks[idx + 1]? = some t2) (ht2 : ¬t2.type = TokenType.EQ) :
    statement toks idx =
      match expr toks (idx + 1) with
      | PRes.ok n c => PRes.ok n (1 + c)
      | r => r := by
  rw [statement.eq_def]
  split
  · rename_i h3; rw [h] at h3; cases h3
  · rename_i tok2 h3
    rw [h] at h3
    cases h3
    rw [if_pos ht]
    split
    · rename_i t2' h4
      rw [h2] at h4
      cases h4
      rw [if_neg ht2]
    · rename_i h4; rw [h2] at h4

lemma statement_eq_ident_end {toks : List Token} {idx : Nat} {tok : Token}
    (h : toks[idx]? = some tok) (ht : tok.type = TokenType.IDENTIFIER)
    (h2 : toks[idx + 1]? = none) :
    statement toks idx =
      match expr toks (idx + 1) with
      | PRes.ok n c => PRes.ok n (1 + c)
      | r => r := by
  rw [statement.eq_def]
  split
  · rename_i h3; rw [h] at h3; cases h3
  · rename_i tok2 h3
    rw [h] at h3
    cases h3
    rw [if_pos ht]
    split
    · rename_i t2' h4; rw [h2] at h4; cases h4
    · rfl

lemma statement_eq_expr {toks : List Token} {idx : Nat} {tok : Token}
    (h : toks[idx]? = some tok) (ht : ¬tok.type = TokenType.IDENTIFIER) :
    statement toks idx = expr toks idx := by
  rw [statement.eq_def]
  split
  · rename_i h3; rw [h] at h3; cases h3
  · rename_i tok2 h3
    rw [h] at h3
    cases h3
    rw [if_neg ht]

/-! ## Character-class facts and step equations for the lexer -/

/-- The character classes the spec's scanner dispatch recognises: whitespace,
digits, letters (incl. underscore), and the seven operator/punctuation
characters.  Everything else falls to the `IllegalCharError` branch. -/
def specLegalChar (c : Char) : Prop :=
  c = ' ' ∨ c = '\t' ∨ c ∈ DIGITS ∨ c ∈ LETTERS ∨
    c = '+' ∨ c = '-' ∨ c = '*' ∨ c = '/' ∨ c = '=' ∨ c = '(' ∨ c = ')'

instance (c : Char) : Decidable (specLegalChar c) := by
  unfold specLegalChar
  infer_instance

lemma digits_not_ws : ∀ c ∈ DIGITS, ¬(c = ' ' ∨ c = '\t') := by decide

lemma letters_not_ws : ∀ c ∈ LETTERS, ¬(c = ' ' ∨ c = '\t') := by decide

lemma letters_not_digit : ∀ c ∈ LETTERS, c ∉ DIGITS := by decide

lemma mt_nil (pos : Nat) : make_tokens [] pos = ([], none) := by
  rw [make_tokens.eq_1]

lemma mt_ws {c : Char} (rest : List Char) (pos : Nat)
    (h : c = ' ' ∨ c = '\t') :
    make_tokens (c :: rest) pos = make_tokens rest (pos + 1) := by
  rw [make_tokens.eq_2, if_pos h]

lemma mt_digit {c : Char} (rest : List Char) (pos : Nat) (hd : c ∈ DIGITS) :
    make_tokens (c :: rest) pos =
      match make_number_core (c :: rest) 0 with
      | (s, d, r) =>
        match make_tokens r (pos + s.length) with
        | (_, some e) => ([], some e)
        | (toks, none) =>
          ((if d = 0 then ⟨TokenType.INT, TokenValue.vInt (strToNat s : ℤ)⟩
            else ⟨TokenType.FLOAT, TokenValue.vFloat (strToRat s)⟩) :: toks,
            none) := by
  rw [make_tokens.eq_2, if_neg (digits_not_ws c hd), dif_pos hd]

lemma mt_letter {c : Char} (rest : List Char) (pos : Nat) (hl : c ∈ LETTERS) :
    make_tokens (c :: rest) pos =
      match make_identifier_core (c :: rest) with
      | (s, r) =>
        match make_tokens r (pos + s.length) with
        | (_, some e) => ([], some e)
        | (toks, none) =>
          (⟨TokenType.IDENTIFIER, TokenValue.vStr s⟩ :: toks, none) := by
  rw [make_tokens.eq_2, if_neg (letters_not_ws c hl),
    dif_neg (letters_not_digit c hl), dif_pos hl]

lemma mt_op {c : Char} {tt : TokenType} (rest : List Char) (pos : Nat)
    (hws : ¬(c = ' ' ∨ c = '\t')) (hd : c ∉ DIGITS) (hl : c ∉ LETTERS)
    (hop : (c = '+' ∧ tt = TokenType.PLUS) ∨ (c = '-' ∧ tt = TokenType.MINUS) ∨
      (c = '*' ∧ tt = TokenType.MUL) ∨ (c = '/' ∧ tt = TokenType.DIV) ∨
      (c = '=' ∧ tt = TokenType.EQ) ∨ (c = '(' ∧ tt = TokenType.LPAREN) ∨
      (c = ')' ∧ tt = TokenType.RPAREN)) :
    make_tokens (c :: rest) pos =
      match make_tokens rest (pos + 1) with
      | (_, some e) => ([], some e)
      | (toks, none) => (⟨tt, TokenValue.vNone⟩ :: toks, none) := by
  rw [make_tokens.eq_2, if_neg hws, dif_neg hd, dif_neg hl]
  rcases hop with ⟨hc, htt⟩ | ⟨hc, htt⟩ | ⟨hc, htt⟩ | ⟨hc, htt⟩ | ⟨hc, htt⟩ |
    ⟨hc, htt⟩ | ⟨hc, htt⟩ <;> subst hc <;> subst htt <;> simp

lemma mt_illegal {c : Char} (rest : List Char) (pos : Nat)
    (h : ¬specLegalChar c) :
    make_tokens (c :: rest) pos = ([], some ⟨pos, c⟩) := by
  unfold specLegalChar at h
  push_neg at h
  obtain ⟨h1, h2, h3, h4, h5, h6, h7, h8, h9, h10, h11⟩ := h
  rw [make_tokens.eq_2, if_neg (by rintro (hc | hc) <;> [exact h1 hc; exact h2 hc]),
    dif_neg h3, dif_neg h4, if_neg h5, if_neg h6, if_neg h7, if_neg h8,
    if_neg h9, if_neg h10, if_neg h11]

/-! ## Structure of the scanner helpers -/

/-- `make_number` consumes a prefix of the text: input = `num_str ++ rest`. -/
lemma make_number_core_split (cs : List Char) (d : Nat) :
    cs = (make_number_core cs d).1 ++ (make_number_core cs d).2.2 := by
  induction cs generalizing d with
  | nil => simp [make_number_core]
  | cons c rest ih =>
    simp only [make_number_core]
    split
    · split
      · rename_i hmem hdot
        split
        · simp
        · rcases h : make_number_core rest (d + 1) with ⟨s, dd, r⟩
          have := ih (d + 1)
          rw [h] at this
          simp only [List.cons_append, hdot]
          exact congrArg _ this
      · rcases h : make_number_core rest d with ⟨s, dd, r⟩
        have := ih d
        rw [h] at this
        simp only [List.cons_append]
        exact congrArg _ this
    · simp

/-- `make_identifier` consumes a prefix of the text: input = `id_str ++ rest`. -/
lemma make_identifier_core_split (cs : List Char) :
    cs = (make_identifier_core cs).1 ++ (make_identifier_core cs).2 := by
  induction cs with
  | nil => simp [make_identifier_core]
  | cons c rest ih =>
    simp only [make_identifier_core]
    split
    · rcases h : make_identifier_core rest with ⟨s, r⟩
      rw [h] at ih
      simp only [List.cons_append]
      exact congrArg _ ih
    · simp

/-- On a pure digit run, `make_number`'s loop consumes everything and the dot
count is unchanged. -/
lemma make_number_core_all_digits (cs : List Char) (d : Nat)
    (h : ∀ c ∈ cs, c ∈ DIGITS) : make_number_core cs d = (cs, d, []) := by
  induction cs generalizing d with
  | nil => simp [make_number_core]
  | cons c rest ih =>
    have hc : c ∈ DIGITS := h c (List.mem_cons_self c rest)
    have hmem : c ∈ DIGITS ++ ['.'] := List.mem_append_left _ hc
    have hne : c ≠ '.' := mem_digits_ne_dot hc
    have hrest : ∀ x ∈ rest, x ∈ DIGITS := fun x hx => h x (List.mem_cons_of_mem _ hx)
    simp only [make_number_core, if_pos hmem, if_neg hne, ih d hrest]

/-- A leading digit run passes through `make_number`'s loop unchanged. -/
lemma make_number_core_digits_front (a rest : List Char) (d : Nat)
    (h : ∀ c ∈ a, c ∈ DIGITS) :
    make_number_core (a ++ rest) d =
      (a ++ (make_number_core rest d).1, (make_number_core rest d).2.1,
        (make_number_core rest d).2.2) := by
  induction a generalizing d with
  | nil => simp
  | cons c a2 ih =>
    have hc : c ∈ DIGITS := h c (List.mem_cons_self c a2)
    have hmem : c ∈ DIGITS ++ ['.'] := List.mem_append_left _ hc
    have hne : c ≠ '.' := mem_digits_ne_dot hc
    have ha2 : ∀ x ∈ a2, x ∈ DIGITS := fun x hx => h x (List.mem_cons_of_mem _ hx)
    simp only [List.cons_append, make_number_core, if_pos hmem, if_neg hne,
      List.append_eq, ih d ha2]

/-- On digits-dot-digits, `make_number`'s loop consumes everything, counting
exactly one dot. -/
lemma make_number_core_one_dot (a b : List Char)
    (ha : ∀ c ∈ a, c ∈ DIGITS) (hb : ∀ c ∈ b, c ∈ DIGITS) :
    make_number_core (a ++ '.' :: b) 0 = (a ++ '.' :: b, 1, []) := by
  rw [make_number_core_digits_front a _ 0 ha]
  have hdotstep : make_number_core ('.' :: b) 0 = ('.' :: b, 1, []) := by
    have hmem : ('.' : Char) ∈ DIGITS ++ ['.'] := by decide
    simp only [make_number_core, if_pos hmem, if_pos rfl,
      make_number_core_all_digits b 1 hb]
    simp
  rw [hdotstep]

lemma getElem?_cons_shift {α : Type} {c : α} {l : List α} {pos p : Nat} {x : α}
    (hle : pos + 1 ≤ p) (h : l[p - (pos + 1)]? = some x) :
    (c :: l)[p - pos]? = some x := by
  have he : p - pos = (p - (pos + 1)) + 1 := by omega
  rw [he, List.getElem?_cons_succ]
  exact h

lemma getElem?_append_shift {α : Type} {s r : List α} {pos p : Nat} {x : α}
    (hle : pos + s.length ≤ p) (h : r[p - (pos + s.length)]? = some x) :
    (s ++ r)[p - pos]? = some x := by
  rw [List.getElem?_append_right (by omega : s.length ≤ p - pos)]
  have he : p - pos - s.length = p - (pos + s.length) := by omega
  rw [he]
  exact h

set_option maxHeartbeats 1000000 in
lemma make_tokens_error : ∀ (cs : List Char) (pos : Nat) (toks : List Token)
    (e : IllegalCharError), make_tokens cs pos = (toks, some e) →
    toks = [] ∧ pos ≤ e.pos ∧ cs[e.pos - pos]? = some e.char ∧
      ¬specLegalChar e.char := by
  intro cs pos
  induction cs, pos using make_tokens.induct
  case case1 pos =>
    intro toks e h
    rw [mt_nil] at h
    simp at h
  case case2 c rest pos hw ih =>
    intro toks e h
    rw [mt_ws rest pos hw] at h
    obtain ⟨q1, q2, q3, q4⟩ := ih toks e h
    exact ⟨q1, by omega, getElem?_cons_shift q2 q3, q4⟩
  case case3 c rest pos hws hd s d r hn fst e2 hx ih =>
    intro toks e h
    rw [mt_digit rest pos hd] at h
    simp only [hn, hx] at h
    injection h with h1 h2
    injection h2 with h3
    subst h1
    subst h3
    obtain ⟨q1, q2, q3, q4⟩ := ih fst e2 hx
    have hsplit : c :: rest = s ++ r := by
      have := make_number_core_split (c :: rest) 0
      rw [hn] at this
      exact this
    refine ⟨rfl, by omega, ?_, q4⟩
    rw [hsplit]
    exact getElem?_append_shift q2 q3
  case case4 c rest pos hws hd s d r hn toks2 hx ih =>
    intro toks e h
    rw [mt_digit rest pos hd] at h
    simp only [hn, hx] at h
    simp at h
  case case5 c rest pos hws hdig hl s r hi fst e2 hx ih =>
    intro toks e h
    rw [mt_letter rest pos hl] at h
    simp only [hi, hx] at h
    injection h with h1 h2
    injection h2 with h3
    subst h1
    subst h3
    obtain ⟨q1, q2, q3, q4⟩ := ih fst e2 hx
    have hsplit : c :: rest = s ++ r := by
      have := make_identifier_core_split (c :: rest)
      rw [hi] at this
      exact this
    refine ⟨rfl, by omega, ?_, q4⟩
    rw [hsplit]
    exact getElem?_append_shift q2 q3
  case case6 c rest pos hws hdig hl s r hi toks2 hx ih =>
    intro toks e h
    rw [mt_letter rest pos hl] at h
    simp only [hi, hx] at h
    simp at h
  case case21 c rest pos hws hdig hlet h3 h4 h5 h6 h7 h8 h9 =>
    intro toks e h
    rw [mt_illegal rest pos (by
      unfold specLegalChar
      rintro (hc | hc | hc | hc | hc | hc | hc | hc | hc | hc | hc)
      · exact hws (Or.inl hc)
      · exact hws (Or.inr hc)
      · exact hdig hc
      · exact hlet hc
      · exact h3 hc
      · exact h4 hc
      · exact h5 hc
      · exact h6 hc
      · exact h7 hc
      · exact h8 hc
      · exact h9 hc)] at h
    injection h with h1 h2
    injection h2 with h3
    subst h1
    subst h3
    refine ⟨rfl, le_refl _, by simp, ?_⟩
    unfold specLegalChar
    rintro (hc | hc | hc | hc | hc | hc | hc | hc | hc | hc | hc)
    · exact hws (Or.inl hc)
    · exact hws (Or.inr hc)
    · exact hdig hc
    · exact hlet hc
    · exact h3 hc
    · exact h4 hc
    · exact h5 hc
    · exact h6 hc
    · exact h7 hc
    · exact h8 hc
    · exact h9 hc
  all_goals
    intro toks e h
    rename_i ih
    rw [make_tokens.eq_2] at h
    rw [if_neg (by decide), dif_neg (by decide), dif_neg (by decide)] at h
    simp only [Char.reduceEq, reduceIte] at h
    split at h
    · rename_i fst e2 heq
      injection h with h1 h2
      injection h2 with h3
      subst h1
      subst h3
      obtain ⟨q1, q2, q3, q4⟩ := ih fst e2 heq
      exact ⟨rfl, by omega, getElem?_cons_shift q2 q3, q4⟩
    · simp at h


/-- The kind-to-payload invariant: the semantic type of `value` is determined
solely by `kind` — numbers carry numbers, identifiers carry strings, and
operator and punctuation tokens carry no value. -/
def tokenWF (t : Token) : Prop :=
  match t.type with
  | TokenType.INT => ∃ n : ℤ, t.value = TokenValue.vInt n
  | TokenType.FLOAT => ∃ q : ℚ, t.value = TokenValue.vFloat q
  | TokenType.IDENTIFIER => ∃ s : List Char, t.value = TokenValue.vStr s
  | _ => t.value = TokenValue.vNone

set_option maxHeartbeats 1000000 in
lemma make_tokens_wf : ∀ (cs : List Char) (pos : Nat) (toks : List Token)
    (err : Option IllegalCharError), make_tokens cs pos = (toks, err) →
    ∀ t ∈ toks, tokenWF t := by
  intro cs pos
  induction cs, pos using make_tokens.induct
  case case1 pos =>
    intro toks err h
    rw [mt_nil] at h
    injection h with h1 h2
    subst h1
    simp
  case case2 c rest pos hw ih =>
    intro toks err h
    rw [mt_ws rest pos hw] at h
    exact ih toks err h
  case case3 c rest pos hws hd s d r hn fst e2 hx ih =>
    intro toks err h
    rw [mt_digit rest pos hd] at h
    simp only [hn, hx] at h
    injection h with h1 h2
    subst h1
    simp
  case case4 c rest pos hws hd s d r hn toks2 hx ih =>
    intro toks err h
    rw [mt_digit rest pos hd] at h
    simp only [hn, hx] at h
    injection h with h1 h2
    subst h1
    intro t ht
    rcases List.mem_cons.mp ht with rfl | ht2
    · split
      · exact ⟨(strToNat s : ℤ), rfl⟩
      · exact ⟨strToRat s, rfl⟩
    · exact ih toks2 none hx t ht2
  case case5 c rest pos hws hdig hl s r hi fst e2 hx ih =>
    intro toks err h
    rw [mt_letter rest pos hl] at h
    simp only [hi, hx] at h
    injection h with h1 h2
    subst h1
    simp
  case case6 c rest pos hws hdig hl s r hi toks2 hx ih =>
    intro toks err h
    rw [mt_letter rest pos hl] at h
    simp only [hi, hx] at h
    injection h with h1 h2
    subst h1
    intro t ht
    rcases List.mem_cons.mp ht with rfl | ht2
    · exact ⟨s, rfl⟩
    · exact ih toks2 none hx t ht2
  case case21 c rest pos hws hdig hlet h3 h4 h5 h6 h7 h8 h9 =>
    intro toks err h
    rw [mt_illegal rest pos (by
      unfold specLegalChar
      rintro (hc | hc | hc | hc | hc | hc | hc | hc | hc | hc | hc)
      · exact hws (Or.inl hc)
      · exact hws (Or.inr hc)
      · exact hdig hc
      · exact hlet hc
      · exact h3 hc
      · exact h4 hc
      · exact h5 hc
      · exact h6 hc
      · exact h7 hc
      · exact h8 hc
      · exact h9 hc)] at h
    injection h with h1 h2
    subst h1
    simp
  all_goals
    intro toks err h
    rename_i ih
    rw [make_tokens.eq_2] at h
    rw [if_neg (by decide), dif_neg (by decide), dif_neg (by decide)] at h
    simp only [Char.reduceEq, reduceIte] at h
    split at h
    · rename_i fst e2 heq
      injection h with h1 h2
      subst h1
      simp
    · rename_i toks2 heq
      injection h with h1 h2
      subst h1
      intro t ht
      rcases List.mem_cons.mp ht with rfl | ht2
      · exact rfl
      · exact ih toks2 none heq t ht2


/-- A non-empty all-digit run lexes to exactly one `INT` token holding the
parsed integer. -/
lemma tokenize_int_run (cs : List Char) (hne : cs ≠ [])
    (h : ∀ c ∈ cs, c ∈ DIGITS) :
    make_tokens cs 0 =
      ([⟨TokenType.INT, TokenValue.vInt (strToNat cs : ℤ)⟩], none) := by
  cases cs with
  | nil => exact absurd rfl hne
  | cons c rest =>
    have hc : c ∈ DIGITS := h c (List.mem_cons_self c rest)
    rw [mt_digit rest 0 hc, make_number_core_all_digits (c :: rest) 0 h]
    simp [mt_nil]

/-- A digits-dot-digits run lexes to exactly one `FLOAT` token holding the
parsed decimal value. -/
lemma tokenize_float_run (a b : List Char) (hne : a ≠ [])
    (ha : ∀ c ∈ a, c ∈ DIGITS) (hb : ∀ c ∈ b, c ∈ DIGITS) :
    make_tokens (a ++ '.' :: b) 0 =
      ([⟨TokenType.FLOAT, TokenValue.vFloat (strToRat (a ++ '.' :: b))⟩],
        none) := by
  cases a with
  | nil => exact absurd rfl hne
  | cons c a2 =>
    have hc : c ∈ DIGITS := ha c (List.mem_cons_self c a2)
    have ha2 : ∀ x ∈ a2, x ∈ DIGITS := fun x hx => ha x (List.mem_cons_of_mem _ hx)
    have hone := make_number_core_one_dot (c :: a2) b ha hb
    rw [List.cons_append, mt_digit (a2 ++ '.' :: b) 0 hc,
      show c :: (a2 ++ '.' :: b) = (c :: a2) ++ '.' :: b from rfl, hone]
    simp [mt_nil]


/-! ## Concrete tokens used in the claim theorems -/

def tInt (n : ℤ) : Token := ⟨TokenType.INT, TokenValue.vInt n⟩
def tFloat (q : ℚ) : Token := ⟨TokenType.FLOAT, TokenValue.vFloat q⟩
def tIdent (s : List Char) : Token := ⟨TokenType.IDENTIFIER, TokenValue.vStr s⟩
def tPlus : Token := ⟨TokenType.PLUS, TokenValue.vNone⟩
def tMinus : Token := ⟨TokenType.MINUS, TokenValue.vNone⟩
def tMul : Token := ⟨TokenType.MUL, TokenValue.vNone⟩
def tDiv : Token := ⟨TokenType.DIV, TokenValue.vNone⟩
def tEq : Token := ⟨TokenType.EQ, TokenValue.vNone⟩
def tLParen : Token := ⟨TokenType.LPAREN, TokenValue.vNone⟩
def tRParen : Token := ⟨TokenType.RPAREN, TokenValue.vNone⟩

/-! ## Claims -/

/-- C1: the claim says an `Identifier` not followed by `Eq` is re-parsed as the
start of an ordinary expression, so `[Identifier "x"]` should give
`VarAccessNode "x"` and the tokens of `"x + 1"` should give
`BinOpNode (VarAccessNode "x") Plus (NumberNode 1)`.  The code does neither:
`statement` consumes the identifier and falls through to `expr` without
resetting the cursor, so on `[Identifier "x"]` the parse crashes on the
unguarded `None.type` access, and on the tokens of `"x + 1"` it raises
`Unexpected token: PLUS`.  This theorem evaluates the code at both failing
inputs. -/
theorem claim_C1 :
    tokenize "x".data = ([tIdent "x".data], none) ∧
    parse [tIdent "x".data] = ParseResult.crash ∧
    tokenize "x + 1".data = ([tIdent "x".data, tPlus, tInt 1], none) ∧
    parse [tIdent "x".data, tPlus, tInt 1] =
      ParseResult.synErr "Unexpected token: PLUS" := by
  refine ⟨?_, ?_, ?_, ?_⟩
  · simp [tokenize, make_tokens, make_identifier_core, DIGITS, LETTERS, tIdent]
  · simp [parse, statement_eq_ident_end, expr_eq, term_eq, factor_eq_none,
      tIdent]
  · simp [tokenize, make_tokens, make_identifier_core, make_number_core,
      strToNat, DIGITS, LETTERS, tIdent, tPlus, tInt]
  · simp [parse, statement_eq_ident_noeq, expr_eq, term_eq, factor_eq_other,
      tIdent, tPlus, tInt, reprTok, typeName]

/-- C2: the claim says a non-empty token sequence can only end in a completed
AST or a syntax failure, and in particular the tokens of `"1 +"` cannot reach
an unguarded access to a missing token.  In the code they do: `factor` reads
`tok.type` without a `None` guard, so parsing `[Int 1, Plus]` ends in the
`AttributeError` crash — a third outcome.  This theorem evaluates the code at
that failing input. -/
theorem claim_C2 :
    tokenize "1 +".data = ([tInt 1, tPlus], none) ∧
    parse [tInt 1, tPlus] = ParseResult.crash := by
  constructor
  · simp [tokenize, make_tokens, make_number_core, strToNat, DIGITS, LETTERS,
      tInt, tPlus]
  · simp [parse, statement_eq_expr, expr_eq, term_eq, factor_eq_number,
      factor_eq_none, term_loop_eq_noop, term_loop_eq_none, expr_loop_eq_op,
      tInt, tPlus]

/-- C3: same-precedence chains parse left-associatively — the tokens of
`"8 - 3 - 2"` parse to the tree `(8 - 3) - 2`, a `Minus` node whose left child
is the `Minus` node over 8 and 3. -/
theorem claim_C3 :
    tokenize "8 - 3 - 2".data =
      ([tInt 8, tMinus, tInt 3, tMinus, tInt 2], none) ∧
    parse [tInt 8, tMinus, tInt 3, tMinus, tInt 2] =
      ParseResult.ast (Node.BinOpNode
        (Node.BinOpNode (Node.NumberNode (tInt 8)) tMinus
          (Node.NumberNode (tInt 3)))
        tMinus (Node.NumberNode (tInt 2))) := by
  constructor
  · simp [tokenize, make_tokens, make_number_core, strToNat, DIGITS, LETTERS,
      tInt, tMinus]
  · simp [parse, statement_eq_expr, expr_eq, term_eq, factor_eq_number,
      expr_loop_eq_op, expr_loop_eq_none, term_loop_eq_noop, term_loop_eq_none,
      tInt, tMinus]

/-- C4: `* /` bind tighter than `+ -` — the tokens of `"2 + 3 * 4"` parse to a
`Plus` node whose right child is the `Mul` node over 3 and 4, and a
parenthesized sub-expression re-enters the `expr` rule, so the tokens of
`"(2 + 3) * 4"` parse to the `Plus` node as the left child of the `Mul`
node. -/
theorem claim_C4 :
    tokenize "2 + 3 * 4".data = ([tInt 2, tPlus, tInt 3, tMul, tInt 4], none) ∧
    parse [tInt 2, tPlus, tInt 3, tMul, tInt 4] =
      ParseResult.ast (Node.BinOpNode (Node.NumberNode (tInt 2)) tPlus
        (Node.BinOpNode (Node.NumberNode (tInt 3)) tMul
          (Node.NumberNode (tInt 4)))) ∧
    tokenize "(2 + 3) * 4".data =
      ([tLParen, tInt 2, tPlus, tInt 3, tRParen, tMul, tInt 4], none) ∧
    parse [tLParen, tInt 2, tPlus, tInt 3, tRParen, tMul, tInt 4] =
      ParseResult.ast (Node.BinOpNode
        (Node.BinOpNode (Node.NumberNode (tInt 2)) tPlus
          (Node.NumberNode (tInt 3)))
        tMul (Node.NumberNode (tInt 4))) := by
  refine ⟨?_, ?_, ?_, ?_⟩
  · simp [tokenize, make_tokens, make_number_core, strToNat, DIGITS, LETTERS,
      tInt, tPlus, tMul]
  · simp [parse, statement_eq_expr, expr_eq, term_eq, factor_eq_number,
      expr_loop_eq_op, expr_loop_eq_none, expr_loop_eq_noop,
      term_loop_eq_op, term_loop_eq_noop, term_loop_eq_none,
      tInt, tPlus, tMul]
  · simp [tokenize, make_tokens, make_number_core, strToNat, DIGITS, LETTERS,
      tInt, tPlus, tMul, tLParen, tRParen]
  · simp [parse, statement_eq_expr, expr_eq, term_eq, factor_eq_number,
      factor_eq_lparen, expr_loop_eq_op, expr_loop_eq_none, expr_loop_eq_noop,
      term_loop_eq_op, term_loop_eq_noop, term_loop_eq_none,
      tInt, tPlus, tMul, tLParen, tRParen]

/-- C5 (counterexample): the claim as stated quantifies over every input
containing a character outside the whitespace/digit/letter/operator/punctuation
classes.  The decimal point is such a character, yet `"1.5"` — which contains
it at offset 1 — tokenizes successfully to a single `FLOAT` token with no
error, because the dot is consumed inside the number scan and never reaches the
scanner's top-level dispatch. -/
theorem claim_C5_counterexample :
    ('.' ∈ "1.5".data ∧ ¬specLegalChar '.') ∧
    tokenize "1.5".data = ([tFloat (3 / 2)], none) := by
  refine ⟨⟨by decide, by decide⟩, ?_⟩
  have hval : strToRat "1.5".data = 3 / 2 := by
    simp only [strToRat, strToNat, List.takeWhile, List.dropWhile, List.foldl,
      Char.reduceToNat, Char.reduceEq, decide_True, decide_False, Bool.not_true,
      Bool.not_false, List.drop, List.length]
    norm_num
  simp [tokenize, make_tokens, make_number_core, DIGITS, LETTERS, tFloat, hval]

/-- C5 (amended): whenever `tokenize` reports an `IllegalCharError`, the
returned token sequence is empty (tokens recognised earlier are discarded), the
error's position is the zero-based offset of the offending character in the
input, and the character it carries is outside the legal classes.  (The claim's
"first such character" holds only for characters reached by the top-level
dispatch: a decimal point consumed inside a number scan does not abort the
scan.) -/
theorem claim_C5 : ∀ (text : List Char) (toks : List Token)
    (e : IllegalCharError), tokenize text = (toks, some e) →
    toks = [] ∧ text[e.pos]? = some e.char ∧ ¬specLegalChar e.char := by
  intro text toks e h
  obtain ⟨q1, q2, q3, q4⟩ := make_tokens_error text 0 toks e h
  rw [Nat.sub_zero] at q3
  exact ⟨q1, q3, q4⟩

/-- C5 witness: `claim_C5` applied to the concrete input `"@"`. -/
theorem claim_C5_witness :
    ([] : List Token) = [] ∧ "@".data[(0 : Nat)]? = some '@' ∧
      ¬specLegalChar '@' :=
  claim_C5 "@".data [] ⟨0, '@'⟩
    (by rw [tokenize]; exact mt_illegal [] 0 (by decide))

/-- C6: number scanning stops immediately before a second decimal point and
leaves the dot unconsumed; on `"1.2.3"` the scanner therefore returns no token
list and an `IllegalCharError` at the second dot (offset 3), while digit runs
with zero or one decimal point yield exactly one numeric token whose value
equals the parsed literal (`"42"` → Int 42, `"3.14"` → Float 3.14). -/
theorem claim_C6 :
    make_number_core "1.2.3".data 0 = ("1.2".data, 1, ".3".data) ∧
    tokenize "1.2.3".data = ([], some ⟨3, '.'⟩) ∧
    tokenize "42".data = ([tInt 42], none) ∧
    tokenize "3.14".data = ([tFloat 3.14], none) ∧
    (∀ cs : List Char, cs ≠ [] → (∀ c ∈ cs, c ∈ DIGITS) →
      tokenize cs = ([tInt (strToNat cs : ℤ)], none)) ∧
    (∀ a b : List Char, a ≠ [] → (∀ c ∈ a, c ∈ DIGITS) →
      (∀ c ∈ b, c ∈ DIGITS) →
      tokenize (a ++ '.' :: b) =
        ([tFloat (strToRat (a ++ '.' :: b))], none)) := by
  refine ⟨by decide, ?_, ?_, ?_, ?_, ?_⟩
  · simp [tokenize, make_tokens, make_number_core, DIGITS, LETTERS]
  · simp [tokenize, make_tokens, make_number_core, strToNat, DIGITS, LETTERS,
      tInt]
  · have hval : strToRat "3.14".data = 3.14 := by
      simp only [strToRat, strToNat, List.takeWhile, List.dropWhile,
        List.foldl, Char.reduceToNat, Char.reduceEq, decide_True, decide_False,
        Bool.not_true, Bool.not_false, List.drop, List.length]
      norm_num
    simp [tokenize, make_tokens, make_number_core, DIGITS, LETTERS, tFloat,
      hval]
  · exact fun cs hne h => tokenize_int_run cs hne h
  · exact fun a b hne ha hb => tokenize_float_run a b hne ha hb

/-- C6 witness: the universal parts of `claim_C6` applied to the concrete
digit runs `"7"` and `"1" ++ "." ++ "5"`. -/
theorem claim_C6_witness :
    tokenize "7".data = ([tInt (strToNat "7".data : ℤ)], none) ∧
    tokenize ("1".data ++ '.' :: "5".data) =
      ([tFloat (strToRat ("1".data ++ '.' :: "5".data))], none) :=
  ⟨claim_C6.2.2.2.2.1 "7".data (by decide) (by decide),
    claim_C6.2.2.2.2.2 "1".data "5".data (by decide) (by decide) (by decide)⟩

/-- C7: parsing the token sequence of `"x = 1 + 2"` (Identifier immediately
followed by Eq) yields a `VarAssignNode` whose name token is the Identifier
`"x"` and whose value expression is `BinOpNode (NumberNode 1) Plus
(NumberNode 2)`. -/
theorem claim_C7 :
    tokenize "x = 1 + 2".data =
      ([tIdent "x".data, tEq, tInt 1, tPlus, tInt 2], none) ∧
    parse [tIdent "x".data, tEq, tInt 1, tPlus, tInt 2] =
      ParseResult.ast (Node.VarAssignNode (tIdent "x".data)
        (Node.BinOpNode (Node.NumberNode (tInt 1)) tPlus
          (Node.NumberNode (tInt 2)))) := by
  constructor
  · simp [tokenize, make_tokens, make_identifier_core, make_number_core,
      strToNat, DIGITS, LETTERS, tIdent, tEq, tInt, tPlus]
  · simp [parse, statement_eq_assign, expr_eq, term_eq, factor_eq_number,
      expr_loop_eq_op, expr_loop_eq_none, term_loop_eq_noop, term_loop_eq_none,
      tIdent, tEq, tInt, tPlus]

/-- C8: whenever an `LParen`'s inner expression parses successfully but the
next token is not an `RParen` (including end of input), `factor` raises the
distinct "Expected closing parenthesis" syntax failure; concretely, the tokens
of `"(1 + 2"` parse to that failure, and the message differs from every
unexpected-token message. -/
theorem claim_C8 :
    (∀ (toks : List Token) (idx : Nat) (lt : Token) (n : Node) (c : Nat),
      toks[idx]? = some lt → lt.type = TokenType.LPAREN →
      expr toks (idx + 1) = PRes.ok n c →
      (∀ t ∈ toks[idx + 1 + c]?, ¬t.type = TokenType.RPAREN) →
      factor toks idx = PRes.synErr "Expected \x27)\x27") ∧
    tokenize "(1 + 2".data = ([tLParen, tInt 1, tPlus, tInt 2], none) ∧
    parse [tLParen, tInt 1, tPlus, tInt 2] =
      ParseResult.synErr "Expected \x27)\x27" ∧
    (∀ t : Token,
      ("Expected \x27)\x27" : String) ≠ "Unexpected token: " ++ reprTok t) := by
  refine ⟨?_, ?_, ?_, ?_⟩
  · intro toks idx lt n c h ht hexpr hnr
    rw [factor_eq_lparen h ht, hexpr]
    rcases hnext : toks[idx + 1 + c]? with _ | t
    · simp only [hnext]
    · have hn2 := hnr t (by rw [hnext]; exact Option.mem_some_iff.mpr rfl)
      simp only [hnext]
      rw [if_neg hn2]
  · simp [tokenize, make_tokens, make_number_core, strToNat, DIGITS, LETTERS,
      tInt, tPlus, tLParen]
  · simp [parse, statement_eq_expr, expr_eq, term_eq, factor_eq_number,
      factor_eq_lparen, expr_loop_eq_op, expr_loop_eq_none, expr_loop_eq_noop,
      term_loop_eq_noop, term_loop_eq_none, tInt, tPlus, tLParen]
  · intro t h
    have hlen := congrArg String.length h
    rw [String.length_append] at hlen
    have h1 : ("Expected \x27)\x27" : String).length = 12 := by decide
    have h2 : ("Unexpected token: " : String).length = 18 := by decide
    omega

/-- C8 witness: the universal part of `claim_C8` applied to the token sequence
of `"(1 + 2"`. -/
theorem claim_C8_witness :
    factor [tLParen, tInt 1, tPlus, tInt 2] 0 =
      PRes.synErr "Expected \x27)\x27" :=
  claim_C8.1 [tLParen, tInt 1, tPlus, tInt 2] 0 tLParen
    (Node.BinOpNode (Node.NumberNode (tInt 1)) tPlus (Node.NumberNode (tInt 2)))
    3 (by simp [tLParen]) rfl
    (by simp [expr_eq, term_eq, factor_eq_number, expr_loop_eq_op,
      expr_loop_eq_none, term_loop_eq_noop, term_loop_eq_none, tInt, tPlus,
      tLParen])
    (by simp [tLParen, tInt, tPlus])

/-- C9: every token produced by a successful `tokenize` satisfies the payload
invariant determined by its kind: `INT` carries an integer, `FLOAT` a
floating-point value, `IDENTIFIER` a string, and every operator/punctuation
token carries no value. -/
theorem claim_C9 : ∀ (text : List Char) (toks : List Token),
    tokenize text = (toks, none) → ∀ t ∈ toks, tokenWF t :=
  fun text toks h => make_tokens_wf text 0 toks none h

/-- C9 witness: `claim_C9` applied to the tokens of `"x=1"`. -/
theorem claim_C9_witness :
    tokenWF (tIdent "x".data) ∧ tokenWF tEq ∧ tokenWF (tInt 1) :=
  have h : tokenize "x=1".data = ([tIdent "x".data, tEq, tInt 1], none) := by
    simp [tokenize, make_tokens, make_identifier_core, make_number_core,
      strToNat, DIGITS, LETTERS, tIdent, tEq, tInt]
  ⟨claim_C9 "x=1".data _ h (tIdent "x".data) (by simp),
    claim_C9 "x=1".data _ h tEq (by simp),
    claim_C9 "x=1".data _ h (tInt 1) (by simp)⟩

/-- C10: for the empty token sequence (as produced by empty or whitespace-only
input) `parse` returns the absent result and raises no syntax failure, without
invoking any grammar rule. -/
theorem claim_C10 :
    parse [] = ParseResult.nothing ∧
    tokenize "".data = ([], none) ∧
    tokenize "   ".data = ([], none) ∧
    run "   ".data = (some ParseResult.nothing, none) := by
  refine ⟨by simp [parse], by simp [tokenize, mt_nil], ?_, ?_⟩
  · simp [tokenize, make_tokens]
  · simp [run, make_tokens, parse]

end Basic
